import Mathlib

/-!
Verification of the eth-steth risk engine against its specification.

The Python source is shallowly embedded over `ℚ`: pure numeric functions
become Lean functions on rationals, `float("inf")` results are modelled
with `Option ℚ` (`none` = infinity), NumPy arrays become lists or
`ℕ`-indexed sequences, and the stochastic drivers of the Monte Carlo
engine (the sampled utilization and exchange-rate paths) are taken as
arbitrary input sequences, since the claims under study are properties of
the deterministic post-processing applied to them.
-/

/-! ## Interest rate model (src/protocol/interest_rate.py) -/

/-- Parameters for the piecewise linear rate curve
(`InterestRateParams` in `src/protocol/interest_rate.py`). -/
structure InterestRateParams where
  optimal_utilization : ℚ
  base_rate : ℚ
  slope1 : ℚ
  slope2 : ℚ
  reserve_factor : ℚ
deriving DecidableEq

/-- `InterestRateModel.variable_borrow_rate`: scalar kinked borrow-rate
curve.  Mirrors the guards of the source: non-positive utilization returns
the base rate, utilization above 1 is clamped to 1, then the two-branch
piecewise formula is applied. -/
def variable_borrow_rate (p : InterestRateParams) (u : ℚ) : ℚ :=
  if u ≤ 0 then p.base_rate
  else
    let u' := if 1 ≤ u then 1 else u
    if u' ≤ p.optimal_utilization then
      p.base_rate + u' / p.optimal_utilization * p.slope1
    else
      p.base_rate + p.slope1 +
        (u' - p.optimal_utilization) / (1 - p.optimal_utilization) * p.slope2

/-- `InterestRateModel.supply_rate`:
`R_supply = R_borrow * U * (1 - reserve_factor)` with utilization clamped
to `[0, 1]`. -/
def supply_rate (p : InterestRateParams) (u : ℚ) : ℚ :=
  let u' := max 0 (min 1 u)
  variable_borrow_rate p u' * u' * (1 - p.reserve_factor)

/-- `_vectorized_borrow_rate` from `src/simulation/monte_carlo.py`,
expressed pointwise (NumPy applies the same two-branch formula to each
array element; there is no clamping and no non-positive guard). -/
def vectorizedBorrowRate (optimal_utilization base_rate slope1 slope2 u : ℚ) : ℚ :=
  if u ≤ optimal_utilization then
    base_rate + u / optimal_utilization * slope1
  else
    base_rate + slope1 +
      (u - optimal_utilization) / (1 - optimal_utilization) * slope2

/-- On `[0, 1]` the scalar rate reduces to the raw two-branch formula. -/
lemma variable_borrow_rate_eq_of_mem (p : InterestRateParams) (u : ℚ)
    (hopt0 : 0 < p.optimal_utilization) (hu0 : 0 ≤ u) (hu1 : u ≤ 1) :
    variable_borrow_rate p u =
      if u ≤ p.optimal_utilization then
        p.base_rate + u / p.optimal_utilization * p.slope1
      else
        p.base_rate + p.slope1 +
          (u - p.optimal_utilization) / (1 - p.optimal_utilization) * p.slope2 := by
  unfold variable_borrow_rate
  rcases le_or_lt u 0 with h0 | h0
  · have hu : u = 0 := le_antisymm h0 hu0
    subst hu
    rw [if_pos hopt0.le]
    simp
  · rw [if_neg (not_le.mpr h0)]
    have hclamp : (if (1 : ℚ) ≤ u then (1 : ℚ) else u) = u := by
      rcases le_or_lt 1 u with h1 | h1
      · rw [if_pos h1, le_antisymm hu1 h1]
      · rw [if_neg (not_le.mpr h1)]
    rw [hclamp]

/-- C2: for utilization in `[0,1]` and admissible rate parameters, the
vectorized kinked borrow-rate formula used by the Monte Carlo engine
agrees exactly with the scalar `InterestRateModel.variable_borrow_rate`. -/
theorem vectorized_rate_matches_scalar (p : InterestRateParams) (u : ℚ)
    (hu0 : 0 ≤ u) (hu1 : u ≤ 1)
    (hopt0 : 0 < p.optimal_utilization) (hopt1 : p.optimal_utilization ≤ 1)
    (hbase : 0 ≤ p.base_rate) (hs1 : 0 < p.slope1) (hs2 : 0 < p.slope2) :
    vectorizedBorrowRate p.optimal_utilization p.base_rate p.slope1 p.slope2 u =
      variable_borrow_rate p u := by
  rw [variable_borrow_rate_eq_of_mem p u hopt0 hu0 hu1]
  unfold vectorizedBorrowRate
  rfl

/-- Witness for C2 at the production WETH parameters and `u = 0.95`. -/
theorem vectorized_rate_matches_scalar_witness :
    vectorizedBorrowRate (92/100) 0 (27/1000) (2/5) (95/100) =
      variable_borrow_rate ⟨92/100, 0, 27/1000, 2/5, 15/100⟩ (95/100) :=
  vectorized_rate_matches_scalar ⟨92/100, 0, 27/1000, 2/5, 15/100⟩ (95/100)
    (by norm_num) (by norm_num) (by norm_num) (by norm_num) (by norm_num)
    (by norm_num) (by norm_num)

/-- C3: the scalar borrow rate is non-decreasing in utilization over
`[0,1]`, including across the kink. -/
theorem borrow_rate_monotone (p : InterestRateParams)
    (hopt0 : 0 < p.optimal_utilization) (hopt1 : p.optimal_utilization ≤ 1)
    (hbase : 0 ≤ p.base_rate) (hs1 : 0 < p.slope1) (hs2 : 0 < p.slope2)
    (u1 u2 : ℚ) (h10 : 0 ≤ u1) (h12 : u1 < u2) (h21 : u2 ≤ 1) :
    variable_borrow_rate p u1 ≤ variable_borrow_rate p u2 := by
  have h20 : 0 ≤ u2 := le_of_lt (lt_of_le_of_lt h10 h12)
  have h11 : u1 ≤ 1 := le_trans (le_of_lt h12) h21
  rw [variable_borrow_rate_eq_of_mem p u1 hopt0 h10 h11,
    variable_borrow_rate_eq_of_mem p u2 hopt0 h20 h21]
  rcases le_or_lt u1 p.optimal_utilization with hk1 | hk1
  · rcases le_or_lt u2 p.optimal_utilization with hk2 | hk2
    · -- both below the kink
      rw [if_pos hk1, if_pos hk2]
      gcongr
    · -- u1 below, u2 above
      rw [if_pos hk1, if_neg (not_le.mpr hk2)]
      have hoptlt1 : p.optimal_utilization < 1 := lt_of_lt_of_le hk2 h21
      have hless : u1 / p.optimal_utilization * p.slope1 ≤ p.slope1 := by
        have hdiv : u1 / p.optimal_utilization ≤ 1 :=
          (div_le_one hopt0).mpr hk1
        calc u1 / p.optimal_utilization * p.slope1
            ≤ 1 * p.slope1 := by gcongr
          _ = p.slope1 := one_mul _
      have hpos : 0 ≤ (u2 - p.optimal_utilization) /
          (1 - p.optimal_utilization) * p.slope2 := by
        have h1 : 0 ≤ u2 - p.optimal_utilization := by linarith
        have h2 : 0 < 1 - p.optimal_utilization := by linarith
        positivity
      linarith
  · -- both above the kink (u2 > u1 > kink)
    have hk2 : p.optimal_utilization < u2 := lt_trans hk1 h12
    rw [if_neg (not_le.mpr hk1), if_neg (not_le.mpr hk2)]
    have hoptlt1 : p.optimal_utilization < 1 := lt_of_lt_of_le hk2 h21
    have h2 : 0 < 1 - p.optimal_utilization := by linarith
    gcongr

/-- Witness for C3 at the production WETH parameters, across the kink:
`u1 = 1/2 < u2 = 1`. -/
theorem borrow_rate_monotone_witness :
    variable_borrow_rate ⟨92/100, 0, 27/1000, 2/5, 15/100⟩ (1/2) ≤
      variable_borrow_rate ⟨92/100, 0, 27/1000, 2/5, 15/100⟩ 1 :=
  borrow_rate_monotone ⟨92/100, 0, 27/1000, 2/5, 15/100⟩
    (by norm_num) (by norm_num) (by norm_num) (by norm_num) (by norm_num)
    (1/2) 1 (by norm_num) (by norm_num) (by norm_num)

/-! ## Pool model (src/protocol/pool.py) -/

/-- `PoolState` from `src/protocol/pool.py`. -/
structure PoolState where
  total_supply : ℚ
  total_debt : ℚ
deriving DecidableEq

/-- `PoolState.utilization`: `total_debt / total_supply`, guarded to `0`
when `total_supply ≤ 0`. -/
def PoolState.utilization (s : PoolState) : ℚ :=
  if s.total_supply ≤ 0 then 0 else s.total_debt / s.total_supply

/-- `PoolModel`: pool state together with its rate model parameters. -/
structure PoolModel where
  state : PoolState
  params : InterestRateParams
deriving DecidableEq

def PoolModel.utilization (m : PoolModel) : ℚ := m.state.utilization

def PoolModel.borrow_rate (m : PoolModel) : ℚ :=
  variable_borrow_rate m.params m.utilization

/-- The `PoolModel.supply_rate` property (renamed to avoid shadowing the
scalar `supply_rate` function it calls). -/
def PoolModel.supplyRate (m : PoolModel) : ℚ :=
  supply_rate m.params m.utilization

/-- Record returned by `PoolModel.simulate_borrow`. -/
structure BorrowSimResult where
  utilization_before : ℚ
  utilization_after : ℚ
  borrow_rate_before : ℚ
  borrow_rate_after : ℚ
  supply_rate_before : ℚ
  supply_rate_after : ℚ
deriving DecidableEq

/-- Record returned by `PoolModel.simulate_withdrawal`. -/
structure WithdrawalSimResult where
  utilization_before : ℚ
  utilization_after : ℚ
  borrow_rate_before : ℚ
  borrow_rate_after : ℚ
deriving DecidableEq

/-- Record returned by `PoolModel.simulate_liquidation_impact`. -/
structure LiquidationImpactResult where
  utilization_before : ℚ
  utilization_after : ℚ
  borrow_rate_after : ℚ
  supply_rate_after : ℚ
deriving DecidableEq

/-- `PoolModel.simulate_borrow`, in state-passing form: the returned
`PoolModel` is the value of `self` after the call (the method body only
reads fields, so the state is passed through unchanged). -/
def PoolModel.simulate_borrow (m : PoolModel) (amount : ℚ) :
    PoolModel × BorrowSimResult :=
  let u_before := m.utilization
  let r_borrow_before := m.borrow_rate
  let r_supply_before := m.supplyRate
  let new_debt := m.state.total_debt + amount
  let u_after :=
    if 0 < m.state.total_supply then new_debt / m.state.total_supply else 0
  (m, ⟨u_before, u_after, r_borrow_before,
    variable_borrow_rate m.params u_after, r_supply_before,
    supply_rate m.params u_after⟩)

/-- `PoolModel.simulate_withdrawal`, in state-passing form. -/
def PoolModel.simulate_withdrawal (m : PoolModel) (amount : ℚ) :
    PoolModel × WithdrawalSimResult :=
  let u_before := m.utilization
  let r_borrow_before := m.borrow_rate
  let new_supply := max 0 (m.state.total_supply - amount)
  let u_after :=
    if 0 < new_supply then min 1 (m.state.total_debt / new_supply) else 1
  (m, ⟨u_before, u_after, r_borrow_before,
    variable_borrow_rate m.params u_after⟩)

/-- `PoolModel.simulate_liquidation_impact`, in state-passing form. -/
def PoolModel.simulate_liquidation_impact (m : PoolModel)
    (liquidated_debt : ℚ) : PoolModel × LiquidationImpactResult :=
  let u_before := m.utilization
  let new_debt := max 0 (m.state.total_debt - liquidated_debt)
  let u_after :=
    if 0 < m.state.total_supply then new_debt / m.state.total_supply else 0
  (m, ⟨u_before, u_after, variable_borrow_rate m.params u_after,
    supply_rate m.params u_after⟩)

/-- C7: the three `simulate_*` operations leave the pool state
(`total_supply` and `total_debt`) exactly as it was before the call. -/
theorem pool_simulate_operations_pure (m : PoolModel) (amount : ℚ)
    (hamount : 0 ≤ amount) :
    (m.simulate_borrow amount).1.state = m.state ∧
    (m.simulate_withdrawal amount).1.state = m.state ∧
    (m.simulate_liquidation_impact amount).1.state = m.state :=
  ⟨rfl, rfl, rfl⟩

/-- Witness for C7: a concrete pool with supply 1000, debt 780, borrowing
50 more, leaves the recorded state untouched. -/
theorem pool_simulate_operations_pure_witness :
    ((PoolModel.mk ⟨1000, 780⟩ ⟨92/100, 0, 27/1000, 2/5, 15/100⟩).simulate_borrow
        50).1.state = ⟨1000, 780⟩ :=
  (pool_simulate_operations_pure
    (PoolModel.mk ⟨1000, 780⟩ ⟨92/100, 0, 27/1000, 2/5, 15/100⟩) 50
    (by norm_num)).1

/-! ## Stress scenarios and shock engine (src/stress) -/

/-- `StressScenario` from `src/stress/scenarios.py`. -/
structure StressScenario where
  name : String
  description : String
  eth_price_change : ℚ
  steth_peg : ℚ
  utilization_shock : ℚ
  duration_days : ℕ
deriving DecidableEq

/-- `create_custom_scenario` from `src/stress/scenarios.py`. -/
def create_custom_scenario (name : String) (eth_price_change steth_peg
    utilization_shock : ℚ) (duration_days : ℕ) (description : String) :
    StressScenario :=
  ⟨name, description, eth_price_change, steth_peg, utilization_shock,
    duration_days⟩

/-- The `JUNE_2022_DEPEG` historical scenario. -/
def JUNE_2022_DEPEG : StressScenario :=
  ⟨"June 2022 stETH Depeg", "stETH depegged to ~0.93 amid Celsius/3AC collapse.",
    -(2/5), 93/100, 95/100, 14⟩

/-- `ShockResult` from `src/stress/shock_engine.py`.  The health factors
are `Option ℚ` with `none` standing for the source's `float("inf")`
(returned when `debt_value ≤ 0`). -/
structure ShockResult where
  hf_before : Option ℚ
  hf_after : Option ℚ
  collateral_before : ℚ
  collateral_after : ℚ
  pnl_impact : ℚ
  is_liquidated : Bool
deriving DecidableEq

/-- `apply_scenario` from `src/stress/shock_engine.py`: only
`scenario.steth_peg` enters the stressed collateral value; the ETH/USD
price change cancels for the ETH-denominated position.  `is_liquidated`
is `hf_after < 1.0`, which is `false` for an infinite health factor. -/
def apply_scenario (scenario : StressScenario) (collateral_amount
    collateral_price debt_value liquidation_threshold current_peg : ℚ) :
    ShockResult :=
  let collateral_before := collateral_amount * collateral_price * current_peg
  let hf_before : Option ℚ :=
    if 0 < debt_value then
      some (collateral_before * liquidation_threshold / debt_value)
    else none
  let collateral_after :=
    collateral_amount * collateral_price * scenario.steth_peg
  let hf_after : Option ℚ :=
    if 0 < debt_value then
      some (collateral_after * liquidation_threshold / debt_value)
    else none
  let pnl_impact := collateral_after - collateral_before
  { hf_before := hf_before
    hf_after := hf_after
    collateral_before := collateral_before
    collateral_after := collateral_after
    pnl_impact := pnl_impact
    is_liquidated := match hf_after with
      | some h => decide (h < 1)
      | none => false }

/-- C5: two scenarios that agree on `steth_peg` produce identical
`apply_scenario` results, whatever their `eth_price_change` (and other
fields): a uniform ETH/USD move cancels out of the health factor. -/
theorem apply_scenario_ignores_eth_price (s1 s2 : StressScenario)
    (collateral_amount collateral_price debt_value liquidation_threshold
      current_peg : ℚ) (hpeg : s1.steth_peg = s2.steth_peg) :
    apply_scenario s1 collateral_amount collateral_price debt_value
        liquidation_threshold current_peg =
      apply_scenario s2 collateral_amount collateral_price debt_value
        liquidation_threshold current_peg := by
  unfold apply_scenario
  rw [hpeg]

/-- Witness for C5: the June-2022 depeg scenario versus a custom scenario
with the same peg but zero ETH price change, on the production position. -/
theorem apply_scenario_ignores_eth_price_witness :
    apply_scenario JUNE_2022_DEPEG 12000 (118/100) 10500 (955/1000) 1 =
      apply_scenario
        (create_custom_scenario "flat ETH" 0 (93/100) (95/100) 14 "c")
        12000 (118/100) 10500 (955/1000) 1 :=
  apply_scenario_ignores_eth_price JUNE_2022_DEPEG
    (create_custom_scenario "flat ETH" 0 (93/100) (95/100) 14 "c")
    12000 (118/100) 10500 (955/1000) 1 rfl

/-- C9: the post-shock collateral value is
`collateral_amount * collateral_price * scenario.steth_peg` — the
scenario's peg replaces the current peg — so `collateral_after`,
`hf_after` and `is_liquidated` do not depend on `current_peg`. -/
theorem apply_scenario_peg_replaces_current (s : StressScenario)
    (collateral_amount collateral_price debt_value liquidation_threshold
      peg1 peg2 : ℚ) :
    (apply_scenario s collateral_amount collateral_price debt_value
        liquidation_threshold peg1).collateral_after =
      collateral_amount * collateral_price * s.steth_peg ∧
    (apply_scenario s collateral_amount collateral_price debt_value
        liquidation_threshold peg1).collateral_after =
      (apply_scenario s collateral_amount collateral_price debt_value
        liquidation_threshold peg2).collateral_after ∧
    (apply_scenario s collateral_amount collateral_price debt_value
        liquidation_threshold peg1).hf_after =
      (apply_scenario s collateral_amount collateral_price debt_value
        liquidation_threshold peg2).hf_after ∧
    (apply_scenario s collateral_amount collateral_price debt_value
        liquidation_threshold peg1).is_liquidated =
      (apply_scenario s collateral_amount collateral_price debt_value
        liquidation_threshold peg2).is_liquidated :=
  ⟨rfl, rfl, rfl, rfl⟩

/-! ## Position P&L model (src/position/pnl.py, src/position/vault_position.py) -/

/-- Asset identifiers from `src/data/constants.py`. -/
def WETH : String := "WETH"

def WSTETH : String := "wstETH"

/-- `VaultPosition` from `src/position/vault_position.py` (the fields the
P&L model reads). -/
structure VaultPosition where
  collateral_amount : ℚ
  debt_amount : ℚ
  emode_enabled : Bool
deriving DecidableEq

/-- The slice of the `PoolDataProvider` capability surface consumed by
the P&L model: per-asset rate parameters, reserve state and price. -/
structure ProviderData where
  reserve_params : String → InterestRateParams
  reserve_state : String → PoolState
  asset_price : String → ℚ

/-- `VaultPosition.collateral_value`: `collateral_amount * price(wstETH)`. -/
def VaultPosition.collateral_value (pos : VaultPosition)
    (prov : ProviderData) : ℚ :=
  pos.collateral_amount * prov.asset_price WSTETH

/-- `VaultPosition.debt_value`: `debt_amount * price(WETH)`. -/
def VaultPosition.debt_value (pos : VaultPosition) (prov : ProviderData) : ℚ :=
  pos.debt_amount * prov.asset_price WETH

/-- `APYBreakdown` from `src/position/pnl.py`; `net_apy` is `Option ℚ`
with `none` standing for the source's `float("-inf")` when equity ≤ 0. -/
structure APYBreakdown where
  supply_apy : ℚ
  borrow_apy : ℚ
  staking_apy : ℚ
  net_apy : Option ℚ

/-- `compute_apy_breakdown` from `src/position/pnl.py`: supply APY from
the wstETH reserve, borrow APY from the WETH reserve, net APY on equity
guarded by the positive-equity test. -/
def compute_apy_breakdown (pos : VaultPosition) (prov : ProviderData)
    (staking_apy : ℚ) : APYBreakdown :=
  let wsteth_pool := prov.reserve_state WSTETH
  let supplyApy := supply_rate (prov.reserve_params WSTETH) wsteth_pool.utilization
  let weth_pool := prov.reserve_state WETH
  let borrowApy := variable_borrow_rate (prov.reserve_params WETH) weth_pool.utilization
  let collateral_val := pos.collateral_value prov
  let debt_val := pos.debt_value prov
  let equity := collateral_val - debt_val
  let netApy : Option ℚ :=
    if equity ≤ 0 then none
    else some ((collateral_val * (staking_apy + supplyApy) -
      debt_val * borrowApy) / equity)
  ⟨supplyApy, borrowApy, staking_apy, netApy⟩

/-- `daily_pnl` from `src/position/pnl.py`: `(income - cost) / 365.25`,
computed directly on collateral and debt values with no equity gate. -/
def daily_pnl (pos : VaultPosition) (prov : ProviderData)
    (staking_apy : ℚ) : ℚ :=
  let breakdown := compute_apy_breakdown pos prov staking_apy
  let collateral_val := pos.collateral_value prov
  let debt_val := pos.debt_value prov
  let income := collateral_val * (staking_apy + breakdown.supply_apy)
  let cost := debt_val * breakdown.borrow_apy
  (income - cost) / (36525/100)

/-- A provider snapshot with zero WETH utilization (so the borrow rate is
the zero base rate) and zero wstETH utilization, used to exhibit an
underwater position whose daily P&L is positive. -/
def zeroRateProvider : ProviderData :=
  ⟨fun _ => ⟨92/100, 0, 27/1000, 2/5, 15/100⟩,
   fun _ => ⟨100, 0⟩,
   fun _ => 1⟩

/-- Counterexample to C6 as stated: the position with collateral value 99
and debt value 100 is underwater, yet with a zero borrow rate its
`daily_pnl` is `99 * 0.035 / 365.25 > 0` — not negative.  Underwater
equity alone does not force a negative daily P&L. -/
theorem daily_pnl_underwater_not_negative :
    (VaultPosition.mk 99 100 true).collateral_value zeroRateProvider <
      (VaultPosition.mk 99 100 true).debt_value zeroRateProvider ∧
    0 < daily_pnl (VaultPosition.mk 99 100 true) zeroRateProvider (35/1000) := by
  constructor
  · norm_num [VaultPosition.collateral_value, VaultPosition.debt_value,
      zeroRateProvider]
  · norm_num [daily_pnl, compute_apy_breakdown, zeroRateProvider,
      VaultPosition.collateral_value, VaultPosition.debt_value,
      PoolState.utilization, supply_rate, variable_borrow_rate]

/-- C6 (amended): `daily_pnl` returns `(income - cost) / 365.25` computed
directly over `collateral_value`/`debt_value` with no positive-equity
gate, and whenever the borrow cost exceeds the income the result is
strictly negative rather than clamped to zero. -/
theorem daily_pnl_ungated (pos : VaultPosition) (prov : ProviderData)
    (staking_apy : ℚ) :
    daily_pnl pos prov staking_apy =
      (pos.collateral_value prov *
          (staking_apy + (compute_apy_breakdown pos prov staking_apy).supply_apy) -
        pos.debt_value prov *
          (compute_apy_breakdown pos prov staking_apy).borrow_apy) / (36525/100) ∧
    (pos.collateral_value prov *
          (staking_apy + (compute_apy_breakdown pos prov staking_apy).supply_apy) <
        pos.debt_value prov *
          (compute_apy_breakdown pos prov staking_apy).borrow_apy →
      daily_pnl pos prov staking_apy < 0) := by
  refine ⟨rfl, fun h => ?_⟩
  unfold daily_pnl
  have hnum : pos.collateral_value prov *
      (staking_apy + (compute_apy_breakdown pos prov staking_apy).supply_apy) -
      pos.debt_value prov *
        (compute_apy_breakdown pos prov staking_apy).borrow_apy < 0 := by
    linarith
  exact div_neg_of_neg_of_pos hnum (by norm_num)

/-- A provider snapshot with saturated WETH utilization (borrow rate
`0.427` at the production parameters). -/
def fullUtilProvider : ProviderData :=
  ⟨fun _ => ⟨92/100, 0, 27/1000, 2/5, 15/100⟩,
   fun _ => ⟨100, 100⟩,
   fun _ => 1⟩

/-- Witness for the amended C6: under full WETH utilization the position
with collateral 99 and debt 100 has borrow cost `42.7` against income
`≈ 39.4`, and its daily P&L is negative. -/
theorem daily_pnl_ungated_witness :
    daily_pnl (VaultPosition.mk 99 100 true) fullUtilProvider (35/1000) < 0 :=
  (daily_pnl_ungated (VaultPosition.mk 99 100 true) fullUtilProvider
    (35/1000)).2 (by
      norm_num [compute_apy_breakdown, fullUtilProvider,
        VaultPosition.collateral_value, VaultPosition.debt_value, WETH, WSTETH,
        PoolState.utilization, supply_rate, variable_borrow_rate])

/-! ## Liquidation cascade (src/simulation/liquidation_cascade.py) -/

/-- `CascadeConfig` (the fields `simulate_cascade` reads; the optional
`positions`/`curve_liquidity` hooks are `None` in this code path). -/
structure CascadeConfig where
  initial_debt_to_liquidate : ℚ
  collateral_price : ℚ
  liquidation_bonus : ℚ
  price_impact_per_unit : ℚ
  depeg_sensitivity : ℚ
  max_steps : ℕ
  min_debt_threshold : ℚ
deriving DecidableEq

/-- `CascadeStep` from `src/simulation/results.py`. -/
structure CascadeStep where
  step : ℕ
  debt_liquidated : ℚ
  collateral_seized : ℚ
  total_supply : ℚ
  total_debt : ℚ
  utilization : ℚ
  borrow_rate : ℚ
  collateral_price : ℚ
  at_risk_debt : ℚ
deriving DecidableEq

/-- `CascadeResult` from `src/simulation/results.py`. -/
structure CascadeResult where
  steps : List CascadeStep
  total_debt_liquidated : ℚ
  total_collateral_seized : ℚ
  final_utilization : ℚ
  final_borrow_rate : ℚ
deriving DecidableEq

/-- The body of the `for step_num in range(max_steps)` loop of
`simulate_cascade`, recursing on the remaining iteration count.
Arguments mirror the loop's mutable state: current step number, remaining
debt, current collateral price, next round's `debt_to_liquidate`, and the
two running totals.  Returns the emitted steps, the final debt and the
final totals. -/
def cascadeLoop (cfg : CascadeConfig) (p : InterestRateParams) (supply : ℚ) :
    ℕ → ℕ → ℚ → ℚ → ℚ → ℚ → ℚ → List CascadeStep × ℚ × ℚ × ℚ
  | 0, _, debt, _, _, totL, totS => ([], debt, totL, totS)
  | fuel + 1, step_num, debt, price, dtl, totL, totS =>
    if dtl < cfg.min_debt_threshold then ([], debt, totL, totS)
    else
      let dtl' := if debt < dtl then debt else dtl
      let collateral_seized := dtl' * (1 + cfg.liquidation_bonus) / price
      let debt' := debt - dtl'
      let totL' := totL + dtl'
      let totS' := totS + collateral_seized
      let peg_drop := min (collateral_seized * cfg.price_impact_per_unit) (99/100)
      let price' := price * (1 - peg_drop)
      let price'' := if price' < 1/100 then 1/100 else price'
      let util := if 0 < supply then debt' / supply else 0
      let rate := variable_borrow_rate p util
      let at_risk_debt := max 0 (debt' * cfg.depeg_sensitivity * peg_drop)
      let out := cascadeLoop cfg p supply fuel (step_num + 1) debt' price''
        at_risk_debt totL' totS'
      (⟨step_num + 1, dtl', collateral_seized, supply, debt', util, rate,
        price'', at_risk_debt⟩ :: out.1, out.2)

/-- `simulate_cascade` from `src/simulation/liquidation_cascade.py`. -/
def simulate_cascade (pool_state : PoolState) (rate_params : InterestRateParams)
    (config : CascadeConfig) : CascadeResult :=
  let out := cascadeLoop config rate_params pool_state.total_supply
    config.max_steps 0 pool_state.total_debt config.collateral_price
    config.initial_debt_to_liquidate 0 0
  let final_util :=
    if 0 < pool_state.total_supply then out.2.1 / pool_state.total_supply else 0
  { steps := out.1
    total_debt_liquidated := out.2.2.1
    total_collateral_seized := out.2.2.2
    final_utilization := final_util
    final_borrow_rate := variable_borrow_rate rate_params final_util }

/-- The `0.01` price floor applied after each cascade round. -/
lemma floor_clamp_ge (x : ℚ) : 1/100 ≤ if x < 1/100 then 1/100 else x := by
  split
  · exact le_refl _
  · next h => exact le_of_not_lt h

/-- Every step the cascade loop emits records a collateral price of at
least `0.01`: the per-round drop is capped at `0.99` and the updated
price is floored at `0.01` before being stored. -/
lemma cascadeLoop_price_floor (cfg : CascadeConfig) (p : InterestRateParams)
    (supply : ℚ) :
    ∀ (fuel step_num : ℕ) (debt price dtl totL totS : ℚ),
      ∀ s ∈ (cascadeLoop cfg p supply fuel step_num debt price dtl totL totS).1,
        1/100 ≤ s.collateral_price := by
  intro fuel
  induction fuel with
  | zero => intro step_num debt price dtl totL totS s hs; simp [cascadeLoop] at hs
  | succ fuel ih =>
    intro step_num debt price dtl totL totS s hs
    rw [cascadeLoop] at hs
    by_cases hbreak : dtl < cfg.min_debt_threshold
    · simp [hbreak] at hs
    · rw [if_neg hbreak] at hs
      simp only [List.mem_cons] at hs
      rcases hs with hs | hs
      · subst hs
        exact floor_clamp_ge _
      · exact ih _ _ _ _ _ _ s hs

/-- C8: for every configuration (however large `price_impact_per_unit`)
with a positive starting collateral price, every `CascadeStep` produced
by `simulate_cascade` records a collateral price of at least `0.01`. -/
theorem cascade_price_floor (pool_state : PoolState)
    (rate_params : InterestRateParams) (config : CascadeConfig)
    (hprice : 0 < config.collateral_price) :
    ∀ s ∈ (simulate_cascade pool_state rate_params config).steps,
      1/100 ≤ s.collateral_price := by
  intro s hs
  exact cascadeLoop_price_floor config rate_params pool_state.total_supply
    config.max_steps 0 pool_state.total_debt config.collateral_price
    config.initial_debt_to_liquidate 0 0 s hs

/-- Witness for C8: an extreme `price_impact_per_unit = 1` cascade on a
1000-supply / 500-debt pool emits the step with price `59/5000 = 0.0118`,
which is at or above `0.01`. -/
theorem cascade_price_floor_witness :
    (1 : ℚ)/100 ≤
      (CascadeStep.mk 1 500 (25250/59) 1000 0 0 0 (59/5000) 0).collateral_price :=
  cascade_price_floor ⟨1000, 500⟩ ⟨92/100, 0, 27/1000, 2/5, 15/100⟩
    ⟨500, 118/100, 1/100, 1, 5, 1, 100⟩ (by norm_num)
    ⟨1, 500, 25250/59, 1000, 0, 0, 0, 59/5000, 0⟩
    (by norm_num [simulate_cascade, cascadeLoop, variable_borrow_rate])

/-- Debt-side invariants of the cascade loop: emitted round debts are
non-negative, the final debt is non-negative, liquidated totals track the
debt decrease, recorded debts are non-increasing along the trace, and —
when the incoming `debt_to_liquidate` is non-negative — the first
recorded debt does not exceed the incoming debt. -/
lemma cascadeLoop_debt_invariants (cfg : CascadeConfig)
    (p : InterestRateParams) (supply : ℚ) :
    ∀ (fuel step_num : ℕ) (debt price dtl totL totS : ℚ), 0 ≤ debt →
      (∀ s ∈ (cascadeLoop cfg p supply fuel step_num debt price dtl totL totS).1,
        0 ≤ s.total_debt) ∧
      0 ≤ (cascadeLoop cfg p supply fuel step_num debt price dtl totL totS).2.1 ∧
      (cascadeLoop cfg p supply fuel step_num debt price dtl totL totS).2.2.1 =
        totL + (debt -
          (cascadeLoop cfg p supply fuel step_num debt price dtl totL totS).2.1) ∧
      List.Chain' (fun a b => b.total_debt ≤ a.total_debt)
        (cascadeLoop cfg p supply fuel step_num debt price dtl totL totS).1 ∧
      (0 ≤ dtl →
        ∀ s ∈ (cascadeLoop cfg p supply fuel step_num debt price dtl totL
          totS).1.head?, s.total_debt ≤ debt) := by
  intro fuel
  induction fuel with
  | zero =>
    intro step_num debt price dtl totL totS hdebt
    refine ⟨?_, ?_, ?_, ?_, ?_⟩ <;> simp [cascadeLoop, hdebt]
  | succ fuel ih =>
    intro step_num debt price dtl totL totS hdebt
    by_cases hbreak : dtl < cfg.min_debt_threshold
    · rw [cascadeLoop, if_pos hbreak]
      refine ⟨?_, ?_, ?_, ?_, ?_⟩ <;> simp [hdebt]
    · rw [cascadeLoop, if_neg hbreak]
      have hcap : (if debt < dtl then debt else dtl) ≤ debt := by
        split
        · exact le_refl _
        · next h => exact le_of_not_lt h
      have hdebt' : 0 ≤ debt - (if debt < dtl then debt else dtl) := by linarith
      obtain ⟨h1, h2, h3, h4, h5⟩ := ih (step_num + 1)
        (debt - (if debt < dtl then debt else dtl))
        (if (price * (1 - min ((if debt < dtl then debt else dtl) *
              (1 + cfg.liquidation_bonus) / price * cfg.price_impact_per_unit)
              (99/100))) < 1/100 then 1/100
          else price * (1 - min ((if debt < dtl then debt else dtl) *
              (1 + cfg.liquidation_bonus) / price * cfg.price_impact_per_unit)
              (99/100)))
        (max 0 ((debt - (if debt < dtl then debt else dtl)) *
          cfg.depeg_sensitivity *
          min ((if debt < dtl then debt else dtl) *
            (1 + cfg.liquidation_bonus) / price * cfg.price_impact_per_unit)
            (99/100)))
        (totL + (if debt < dtl then debt else dtl))
        (totS + (if debt < dtl then debt else dtl) *
          (1 + cfg.liquidation_bonus) / price)
        hdebt'
      refine ⟨?_, h2, ?_, ?_, ?_⟩
      · intro s hs
        simp only [List.mem_cons] at hs
        rcases hs with hs | hs
        · subst hs
          exact hdebt'
        · exact h1 s hs
      · simp only
        rw [h3]
        ring
      · refine List.chain'_cons'.mpr ⟨?_, h4⟩
        intro b hb
        have := h5 (le_max_left 0 _) b hb
        simpa using this
      · intro hdtl s hs
        simp only [List.head?_cons, Option.mem_def, Option.some.injEq] at hs
        subst hs
        simp only
        have : 0 ≤ (if debt < dtl then debt else dtl) := by
          split
          · exact hdebt
          · exact hdtl
        linarith

/-- C10: with a non-negative starting pool debt, every cascade round's
liquidation is capped at the remaining debt, so the recorded `total_debt`
is non-negative and non-increasing along the step trace, and the total
debt liquidated never exceeds the input pool debt. -/
theorem cascade_debt_nonincreasing (pool_state : PoolState)
    (rate_params : InterestRateParams) (config : CascadeConfig)
    (hdebt : 0 ≤ pool_state.total_debt) :
    (∀ s ∈ (simulate_cascade pool_state rate_params config).steps,
      0 ≤ s.total_debt) ∧
    List.Chain' (fun a b => b.total_debt ≤ a.total_debt)
      (simulate_cascade pool_state rate_params config).steps ∧
    (simulate_cascade pool_state rate_params config).total_debt_liquidated ≤
      pool_state.total_debt := by
  obtain ⟨h1, h2, h3, h4, h5⟩ := cascadeLoop_debt_invariants config rate_params
    pool_state.total_supply config.max_steps 0 pool_state.total_debt
    config.collateral_price config.initial_debt_to_liquidate 0 0 hdebt
  refine ⟨h1, h4, ?_⟩
  show (cascadeLoop config rate_params pool_state.total_supply config.max_steps
    0 pool_state.total_debt config.collateral_price
    config.initial_debt_to_liquidate 0 0).2.2.1 ≤ pool_state.total_debt
  linarith

/-- Witness for C10: the 1000-supply / 500-debt pool under the default
cascade configuration liquidates at most its starting 500 debt. -/
theorem cascade_debt_nonincreasing_witness :
    (simulate_cascade ⟨1000, 500⟩ ⟨92/100, 0, 27/1000, 2/5, 15/100⟩
      ⟨500, 118/100, 1/100, 1/100000, 5, 10, 100⟩).total_debt_liquidated ≤
      500 :=
  (cascade_debt_nonincreasing ⟨1000, 500⟩ ⟨92/100, 0, 27/1000, 2/5, 15/100⟩
    ⟨500, 118/100, 1/100, 1/100000, 5, 10, 100⟩ (by norm_num)).2.2

/-! ## VaR / CVaR engine (src/stress/var.py) -/

/-- Linear-interpolation lookup used by `np.percentile` (default
interpolation): for a sorted sample `s` and fractional rank `h`, the value
is `s[⌊h⌋] + (h - ⌊h⌋) * (s[⌊h⌋+1] - s[⌊h⌋])`, with the upper neighbour
defaulting to the lower one at the right edge. -/
def interpAt (s : List ℚ) (h : ℚ) : ℚ :=
  let i := (⌊h⌋).toNat
  let lo := s.getD i 0
  let hi := s.getD (i + 1) lo
  lo + (h - (i : ℚ)) * (hi - lo)

/-- `np.percentile(l, q)` with linear interpolation: sort the sample and
interpolate at fractional rank `(n - 1) * q / 100`. -/
def percentile (l : List ℚ) (q : ℚ) : ℚ :=
  interpAt (l.insertionSort (· ≤ ·)) (((l.length : ℚ) - 1) * q / 100)

/-- `np.min` over a non-empty sample (`0` on the empty list, which the
source never hits). -/
def listMin : List ℚ → ℚ
  | [] => 0
  | x :: xs => xs.foldl min x

/-- `VaRResult` from `src/stress/var.py`. -/
structure VaRResult where
  var_95 : ℚ
  var_99 : ℚ
  cvar_95 : ℚ
  cvar_99 : ℚ
  liquidation_prob : ℚ
  max_loss : ℚ
deriving DecidableEq

/-- `compute_var` from `src/stress/var.py`, taking the two fields of
`MonteCarloResult` it reads: `terminal_pnl` and the per-path `liquidated`
flags. -/
def compute_var (terminal_pnl : List ℚ) (liquidated : List Bool) : VaRResult :=
  let var95 := percentile terminal_pnl 5
  let var99 := percentile terminal_pnl 1
  let tail95 := terminal_pnl.filter (fun x => decide (x ≤ var95))
  let cvar95 :=
    if 0 < tail95.length then tail95.sum / (tail95.length : ℚ) else var95
  let tail99 := terminal_pnl.filter (fun x => decide (x ≤ var99))
  let cvar99 :=
    if 0 < tail99.length then tail99.sum / (tail99.length : ℚ) else var99
  let liqProb := (liquidated.count true : ℚ) / (liquidated.length : ℚ)
  ⟨var95, var99, cvar95, cvar99, liqProb, listMin terminal_pnl⟩

lemma foldl_min_le_init (xs : List ℚ) : ∀ a : ℚ, xs.foldl min a ≤ a := by
  induction xs with
  | nil => intro a; exact le_refl a
  | cons x xs ih =>
    intro a
    exact le_trans (ih (min a x)) (min_le_left a x)

lemma foldl_min_le_mem (xs : List ℚ) : ∀ (a x : ℚ), x ∈ xs →
    xs.foldl min a ≤ x := by
  induction xs with
  | nil => intro a x hx; cases hx
  | cons y ys ih =>
    intro a x hx
    rcases List.mem_cons.mp hx with h | h
    · subst h
      exact le_trans (foldl_min_le_init ys (min a x)) (min_le_right a x)
    · exact ih (min a y) x h

/-- `listMin` bounds every element of the list from below. -/
lemma listMin_le (l : List ℚ) (x : ℚ) (hx : x ∈ l) : listMin l ≤ x := by
  cases l with
  | nil => cases hx
  | cons y ys =>
    rcases List.mem_cons.mp hx with h | h
    · subst h; exact foldl_min_le_init ys x
    · exact foldl_min_le_mem ys y x h

lemma foldl_min_mem (xs : List ℚ) : ∀ a : ℚ,
    xs.foldl min a = a ∨ xs.foldl min a ∈ xs := by
  induction xs with
  | nil => intro a; exact Or.inl rfl
  | cons y ys ih =>
    intro a
    simp only [List.foldl_cons]
    rcases ih (min a y) with h | h
    · rcases min_choice a y with hc | hc
      · exact Or.inl (h.trans hc)
      · refine Or.inr ?_
        rw [h, hc]
        exact List.mem_cons_self y ys
    · exact Or.inr (List.mem_cons_of_mem y h)

/-- `listMin` of a non-empty list is one of its elements. -/
lemma listMin_mem (l : List ℚ) (h : l ≠ []) : listMin l ∈ l := by
  cases l with
  | nil => exact absurd rfl h
  | cons x xs =>
    rcases foldl_min_mem xs x with hm | hm
    · rw [listMin, hm]; exact List.mem_cons_self x xs
    · exact List.mem_cons_of_mem x hm

/-- Monotone indexing into a sorted list via `getD`. -/
lemma sorted_getD_mono (s : List ℚ) (hs : s.Sorted (· ≤ ·)) (i j : ℕ)
    (hij : i ≤ j) (hj : j < s.length) : s.getD i 0 ≤ s.getD j 0 := by
  have hi : i < s.length := lt_of_le_of_lt hij hj
  rw [List.getD_eq_getElem s 0 hi, List.getD_eq_getElem s 0 hj]
  have := hs.rel_get_of_le (a := ⟨i, hi⟩) (b := ⟨j, hj⟩) hij
  simpa [List.get_eq_getElem] using this

/-- The natural-number floor of a rank `h ∈ [0, n-1]` casts back below
`h`. -/
lemma floorNat_cast_le (h : ℚ) (h0 : 0 ≤ h) : ((⌊h⌋.toNat : ℕ) : ℚ) ≤ h := by
  have hfl : ((⌊h⌋.toNat : ℤ) : ℚ) = ((⌊h⌋ : ℤ) : ℚ) := by
    exact_mod_cast congrArg (fun z : ℤ => (z : ℚ))
      (Int.toNat_of_nonneg (Int.floor_nonneg.mpr h0))
  calc ((⌊h⌋.toNat : ℕ) : ℚ) = ((⌊h⌋ : ℤ) : ℚ) := by exact_mod_cast hfl
    _ ≤ h := Int.floor_le h

lemma lt_floorNat_cast_add_one (h : ℚ) (h0 : 0 ≤ h) :
    h < ((⌊h⌋.toNat : ℕ) : ℚ) + 1 := by
  have hfl : ((⌊h⌋.toNat : ℤ) : ℚ) = ((⌊h⌋ : ℤ) : ℚ) := by
    exact_mod_cast congrArg (fun z : ℤ => (z : ℚ))
      (Int.toNat_of_nonneg (Int.floor_nonneg.mpr h0))
  have := Int.lt_floor_add_one h
  calc h < ((⌊h⌋ : ℤ) : ℚ) + 1 := this
    _ = ((⌊h⌋.toNat : ℕ) : ℚ) + 1 := by
      have hq : ((⌊h⌋.toNat : ℕ) : ℚ) = ((⌊h⌋ : ℤ) : ℚ) := by exact_mod_cast hfl
      rw [hq]

lemma floorNat_lt_length (h : ℚ) (n : ℕ) (h0 : 0 ≤ h)
    (hn : h ≤ (n : ℚ) - 1) : ⌊h⌋.toNat < n := by
  have hle : ((⌊h⌋.toNat : ℕ) : ℚ) ≤ (n : ℚ) - 1 :=
    le_trans (floorNat_cast_le h h0) hn
  have : ((⌊h⌋.toNat : ℕ) : ℚ) < (n : ℚ) := by linarith
  exact_mod_cast this

/-- In a sorted list the `getD` neighbour above index `i` (defaulting to
the value at `i`) is at least the value at `i`. -/
lemma getD_next_ge (s : List ℚ) (hs : s.Sorted (· ≤ ·)) (i : ℕ) :
    s.getD i 0 ≤ s.getD (i + 1) (s.getD i 0) := by
  rcases lt_or_ge (i + 1) s.length with hlt | hge
  · rw [List.getD_eq_getElem s _ hlt]
    have := sorted_getD_mono s hs i (i + 1) (Nat.le_succ i) hlt
    rw [List.getD_eq_getElem s 0 hlt] at this
    exact this
  · rw [List.getD_eq_default s _ hge]

/-- For in-range indices the defaulted neighbour lookup agrees with the
zero-defaulted one. -/
lemma getD_next_eq (s : List ℚ) (i : ℕ) (hlt : i + 1 < s.length) (d : ℚ) :
    s.getD (i + 1) d = s.getD (i + 1) 0 := by
  rw [List.getD_eq_getElem s d hlt, List.getD_eq_getElem s 0 hlt]

/-- `interpAt` is bounded below by the sorted value at `⌊h⌋`. -/
lemma interpAt_ge_lo (s : List ℚ) (hs : s.Sorted (· ≤ ·)) (h : ℚ)
    (h0 : 0 ≤ h) : s.getD ⌊h⌋.toNat 0 ≤ interpAt s h := by
  simp only [interpAt]
  have hfrac : 0 ≤ h - ((⌊h⌋.toNat : ℕ) : ℚ) := by
    have := floorNat_cast_le h h0
    linarith
  have hnext := getD_next_ge s hs ⌊h⌋.toNat
  nlinarith [mul_nonneg hfrac (sub_nonneg.mpr hnext)]

/-- `interpAt` is bounded above by the sorted value at `⌊h⌋ + 1`. -/
lemma interpAt_le_hi (s : List ℚ) (hs : s.Sorted (· ≤ ·)) (h : ℚ)
    (h0 : 0 ≤ h) :
    interpAt s h ≤ s.getD (⌊h⌋.toNat + 1) (s.getD ⌊h⌋.toNat 0) := by
  simp only [interpAt]
  have hfrac : h - ((⌊h⌋.toNat : ℕ) : ℚ) ≤ 1 := by
    have := lt_floorNat_cast_add_one h h0
    linarith
  have hnext := getD_next_ge s hs ⌊h⌋.toNat
  nlinarith [mul_le_mul_of_nonneg_right hfrac (sub_nonneg.mpr hnext)]

/-- Monotonicity of the interpolated percentile lookup along a sorted
sample. -/
lemma interpAt_mono (s : List ℚ) (hs : s.Sorted (· ≤ ·)) (h1 h2 : ℚ)
    (h10 : 0 ≤ h1) (h12 : h1 ≤ h2) (h2len : h2 ≤ (s.length : ℚ) - 1) :
    interpAt s h1 ≤ interpAt s h2 := by
  have h20 : 0 ≤ h2 := le_trans h10 h12
  have hi12 : ⌊h1⌋.toNat ≤ ⌊h2⌋.toNat :=
    Int.toNat_le_toNat (Int.floor_mono h12)
  rcases eq_or_lt_of_le hi12 with heq | hlt
  · -- same lower index: the difference is (h2 - h1) * (hi - lo) ≥ 0
    simp only [interpAt]
    rw [← heq]
    have hnext := getD_next_ge s hs ⌊h1⌋.toNat
    nlinarith [mul_le_mul_of_nonneg_right (show h1 - ((⌊h1⌋.toNat : ℕ) : ℚ) ≤
      h2 - ((⌊h1⌋.toNat : ℕ) : ℚ) by linarith) (sub_nonneg.mpr hnext)]
  · -- strictly larger index: chain through the two endpoints
    have hi2len : ⌊h2⌋.toNat < s.length := floorNat_lt_length h2 s.length h20 h2len
    have hi1len : ⌊h1⌋.toNat + 1 < s.length := lt_of_le_of_lt hlt hi2len
    calc interpAt s h1
        ≤ s.getD (⌊h1⌋.toNat + 1) (s.getD ⌊h1⌋.toNat 0) :=
          interpAt_le_hi s hs h1 h10
      _ = s.getD (⌊h1⌋.toNat + 1) 0 := getD_next_eq s _ hi1len _
      _ ≤ s.getD ⌊h2⌋.toNat 0 := sorted_getD_mono s hs _ _ hlt hi2len
      _ ≤ interpAt s h2 := interpAt_ge_lo s hs h2 h20

/-- Percentiles are monotone in the quantile level. -/
lemma percentile_mono (l : List ℚ) (hne : l ≠ []) (q1 q2 : ℚ)
    (hq0 : 0 ≤ q1) (hq12 : q1 ≤ q2) (hq100 : q2 ≤ 100) :
    percentile l q1 ≤ percentile l q2 := by
  unfold percentile
  have hs : (l.insertionSort (· ≤ ·)).Sorted (· ≤ ·) :=
    List.sorted_insertionSort (· ≤ ·) l
  have hlen : (l.insertionSort (· ≤ ·)).length = l.length :=
    (List.perm_insertionSort (· ≤ ·) l).length_eq
  have hpos : 1 ≤ l.length := List.length_pos.mpr hne
  have hn1 : (0 : ℚ) ≤ (l.length : ℚ) - 1 := by
    have : (1 : ℚ) ≤ (l.length : ℚ) := by exact_mod_cast hpos
    linarith
  apply interpAt_mono _ hs
  · positivity
  · gcongr
  · rw [hlen]
    rw [div_le_iff₀ (show (0 : ℚ) < 100 by norm_num)]
    nlinarith [mul_le_mul_of_nonneg_left hq100 hn1]

/-- The sample minimum bounds every percentile from below. -/
lemma listMin_le_percentile (l : List ℚ) (hne : l ≠ []) (q : ℚ)
    (hq0 : 0 ≤ q) (hq100 : q ≤ 100) : listMin l ≤ percentile l q := by
  unfold percentile
  have hs : (l.insertionSort (· ≤ ·)).Sorted (· ≤ ·) :=
    List.sorted_insertionSort (· ≤ ·) l
  have hlen : (l.insertionSort (· ≤ ·)).length = l.length :=
    (List.perm_insertionSort (· ≤ ·) l).length_eq
  have hpos : 1 ≤ l.length := List.length_pos.mpr hne
  have hn1 : (0 : ℚ) ≤ (l.length : ℚ) - 1 := by
    have : (1 : ℚ) ≤ (l.length : ℚ) := by exact_mod_cast hpos
    linarith
  have hh0 : 0 ≤ ((l.length : ℚ) - 1) * q / 100 := by positivity
  have hhlen : ((l.length : ℚ) - 1) * q / 100 ≤
      ((l.insertionSort (· ≤ ·)).length : ℚ) - 1 := by
    rw [hlen]
    rw [div_le_iff₀ (show (0 : ℚ) < 100 by norm_num)]
    nlinarith [mul_le_mul_of_nonneg_left hq100 hn1]
  have hidx : (⌊((l.length : ℚ) - 1) * q / 100⌋).toNat <
      (l.insertionSort (· ≤ ·)).length :=
    floorNat_lt_length _ _ hh0 hhlen
  have hmem : (l.insertionSort (· ≤ ·)).getD
      (⌊((l.length : ℚ) - 1) * q / 100⌋).toNat 0 ∈ l := by
    rw [List.getD_eq_getElem _ 0 hidx]
    exact (List.perm_insertionSort (· ≤ ·) l).mem_iff.mp
      (List.getElem_mem hidx)
  calc listMin l ≤ (l.insertionSort (· ≤ ·)).getD
        (⌊((l.length : ℚ) - 1) * q / 100⌋).toNat 0 := listMin_le l _ hmem
    _ ≤ interpAt (l.insertionSort (· ≤ ·)) (((l.length : ℚ) - 1) * q / 100) :=
      interpAt_ge_lo _ hs _ hh0

/-- The mean of the values at or below a threshold is at most the
threshold. -/
lemma filter_mean_le (l : List ℚ) (v : ℚ)
    (hne : l.filter (fun x => decide (x ≤ v)) ≠ []) :
    (l.filter (fun x => decide (x ≤ v))).sum /
      ((l.filter (fun x => decide (x ≤ v))).length : ℚ) ≤ v := by
  have hall : ∀ x ∈ l.filter (fun x => decide (x ≤ v)), x ≤ v := by
    intro x hx
    exact of_decide_eq_true (List.mem_filter.mp hx).2
  have hsum := List.sum_le_card_nsmul _ v hall
  rw [nsmul_eq_mul] at hsum
  have hlen : 0 < ((l.filter (fun x => decide (x ≤ v))).length : ℚ) := by
    have := List.length_pos.mpr hne
    exact_mod_cast this
  rw [div_le_iff₀ hlen]
  calc (l.filter (fun x => decide (x ≤ v))).sum ≤
      ((l.filter (fun x => decide (x ≤ v))).length : ℚ) * v := hsum
    _ = v * ((l.filter (fun x => decide (x ≤ v))).length : ℚ) := mul_comm _ _

/-- C4: on a non-empty terminal-P&L sample, `compute_var` satisfies the
tail ordering `var_99 ≤ var_95`, `cvar_95 ≤ var_95`, `cvar_99 ≤ var_99`
and `max_loss ≤ var_99`. -/
theorem var_ordering (terminal_pnl : List ℚ) (liquidated : List Bool)
    (hne : terminal_pnl ≠ []) :
    (compute_var terminal_pnl liquidated).var_99 ≤
      (compute_var terminal_pnl liquidated).var_95 ∧
    (compute_var terminal_pnl liquidated).cvar_95 ≤
      (compute_var terminal_pnl liquidated).var_95 ∧
    (compute_var terminal_pnl liquidated).cvar_99 ≤
      (compute_var terminal_pnl liquidated).var_99 ∧
    (compute_var terminal_pnl liquidated).max_loss ≤
      (compute_var terminal_pnl liquidated).var_99 := by
  have h9995 : percentile terminal_pnl 1 ≤ percentile terminal_pnl 5 :=
    percentile_mono terminal_pnl hne 1 5 (by norm_num) (by norm_num)
      (by norm_num)
  have hmin95 : listMin terminal_pnl ≤ percentile terminal_pnl 5 :=
    listMin_le_percentile terminal_pnl hne 5 (by norm_num) (by norm_num)
  have hmin99 : listMin terminal_pnl ≤ percentile terminal_pnl 1 :=
    listMin_le_percentile terminal_pnl hne 1 (by norm_num) (by norm_num)
  have ht95 : terminal_pnl.filter
      (fun x => decide (x ≤ percentile terminal_pnl 5)) ≠ [] := by
    apply List.ne_nil_of_mem (a := listMin terminal_pnl)
    rw [List.mem_filter]
    exact ⟨listMin_mem terminal_pnl hne, decide_eq_true hmin95⟩
  have ht99 : terminal_pnl.filter
      (fun x => decide (x ≤ percentile terminal_pnl 1)) ≠ [] := by
    apply List.ne_nil_of_mem (a := listMin terminal_pnl)
    rw [List.mem_filter]
    exact ⟨listMin_mem terminal_pnl hne, decide_eq_true hmin99⟩
  refine ⟨h9995, ?_, ?_, hmin99⟩
  · show (if 0 < (terminal_pnl.filter
        (fun x => decide (x ≤ percentile terminal_pnl 5))).length then
        (terminal_pnl.filter
          (fun x => decide (x ≤ percentile terminal_pnl 5))).sum /
          ((terminal_pnl.filter
            (fun x => decide (x ≤ percentile terminal_pnl 5))).length : ℚ)
      else percentile terminal_pnl 5) ≤ percentile terminal_pnl 5
    rw [if_pos (List.length_pos.mpr ht95)]
    exact filter_mean_le terminal_pnl (percentile terminal_pnl 5) ht95
  · show (if 0 < (terminal_pnl.filter
        (fun x => decide (x ≤ percentile terminal_pnl 1))).length then
        (terminal_pnl.filter
          (fun x => decide (x ≤ percentile terminal_pnl 1))).sum /
          ((terminal_pnl.filter
            (fun x => decide (x ≤ percentile terminal_pnl 1))).length : ℚ)
      else percentile terminal_pnl 1) ≤ percentile terminal_pnl 1
    rw [if_pos (List.length_pos.mpr ht99)]
    exact filter_mean_le terminal_pnl (percentile terminal_pnl 1) ht99

/-- Witness for C4 on the concrete sample `[-3, 1, 2]` with one
liquidated path. -/
theorem var_ordering_witness :
    (compute_var [-3, 1, 2] [true, false, false]).var_99 ≤
      (compute_var [-3, 1, 2] [true, false, false]).var_95 ∧
    (compute_var [-3, 1, 2] [true, false, false]).cvar_95 ≤
      (compute_var [-3, 1, 2] [true, false, false]).var_95 ∧
    (compute_var [-3, 1, 2] [true, false, false]).cvar_99 ≤
      (compute_var [-3, 1, 2] [true, false, false]).var_99 ∧
    (compute_var [-3, 1, 2] [true, false, false]).max_loss ≤
      (compute_var [-3, 1, 2] [true, false, false]).var_99 :=
  var_ordering [-3, 1, 2] [true, false, false] (by simp)

/-! ## Monte Carlo engine (src/simulation/monte_carlo.py)

`run_monte_carlo` is vectorized over paths; path `i`'s post-processing
(lines 284-306: liquidation detection, freeze at the first step with
`hf < 1`, health-factor recomputation and P&L) depends only on path `i`'s
own collateral/debt/peg sequences, so it is embedded per path.  The
stochastic drivers (utilization and exchange-rate paths) enter as
arbitrary `ℕ`-indexed sequences. -/

/-- The per-path health factor before freezing:
`hf[t] = collateral[t] * liquidation_threshold / debt[t]`. -/
def hfPre (lt : ℚ) (c d : ℕ → ℚ) (t : ℕ) : ℚ := c t * lt / d t

/-- `liquidated[i] = np.any(hf_paths[i] < 1.0)` over the `n` timesteps. -/
def liqFlag (lt : ℚ) (c d : ℕ → ℚ) (n : ℕ) : Bool :=
  (List.range n).any fun t => decide (hfPre lt c d t < 1)

/-- First index at or after `i` (scanning `fuel` steps) where `p` holds;
returns the scan's end when none does.  This is `np.argmax` on a boolean
row restricted to the case where a hit exists. -/
def firstHitAux (p : ℕ → Bool) : ℕ → ℕ → ℕ
  | 0, i => i
  | fuel + 1, i => if p i then i else firstHitAux p fuel (i + 1)

/-- `first_liq_step[i] = np.argmax(hf_below[i])`: the first timestep with
`hf < 1`. -/
def firstLiq (lt : ℚ) (c d : ℕ → ℚ) (n : ℕ) : ℕ :=
  firstHitAux (fun t => decide (hfPre lt c d t < 1)) n 0

/-- The freeze assignment `x[i, t0:] = x[i, t0]`. -/
def freezeAt (x : ℕ → ℚ) (t0 t : ℕ) : ℚ := if t0 ≤ t then x t0 else x t

/-- One path's slice of `MonteCarloResult`: collateral, debt, optional
peg, health-factor and P&L sequences plus the liquidation flag. -/
structure MCPathResult where
  collateral : ℕ → ℚ
  debt : ℕ → ℚ
  peg : Option (ℕ → ℚ)
  hf : ℕ → ℚ
  pnl : ℕ → ℚ
  liquidated : Bool

/-- Lines 284-306 of `run_monte_carlo` for one path: detect liquidation,
freeze collateral/debt/peg from the first step with `hf < 1.0`,
recompute the health factor from the frozen paths and derive the P&L
path `(collateral - debt) - initial equity`. -/
def runMCPath (lt : ℚ) (n : ℕ) (c d : ℕ → ℚ) (peg : Option (ℕ → ℚ)) :
    MCPathResult :=
  let liq := liqFlag lt c d n
  let t0 := firstLiq lt c d n
  let cF := if liq then freezeAt c t0 else c
  let dF := if liq then freezeAt d t0 else d
  let pegF := if liq then peg.map (fun pp => freezeAt pp t0) else peg
  { collateral := cF
    debt := dF
    peg := pegF
    hf := fun t => cF t * lt / dF t
    pnl := fun t => (cF t - dF t) - (c 0 - d 0)
    liquidated := liq }

/-- The debt recursion of `run_monte_carlo`:
`debt[t] = debt[t-1] * (1 + rate[t-1] / 365)`. -/
def debtPath (d0 : ℚ) (rate : ℕ → ℚ) : ℕ → ℚ
  | 0 => d0
  | t + 1 => debtPath d0 rate t * (1 + rate t / 365)

/-- The collateral-amount recursion of the peg-enabled branch:
initial amount `collateral_value / initial_peg` (guarded), growing with
the daily supply yield only. -/
def collateralAmountPath (c0 peg0 dailySupplyRate : ℚ) : ℕ → ℚ
  | 0 => if 0 < peg0 then c0 / peg0 else c0
  | t + 1 => collateralAmountPath c0 peg0 dailySupplyRate t * (1 + dailySupplyRate)

/-- Peg-enabled collateral value: `amount[t] * peg[t]` for `t ≥ 1`, with
index 0 fixed back to the initial collateral value. -/
def collateralPathPeg (c0 peg0 dailySupplyRate : ℚ) (peg : ℕ → ℚ) : ℕ → ℚ
  | 0 => c0
  | t + 1 => collateralAmountPath c0 peg0 dailySupplyRate (t + 1) * peg (t + 1)

/-- Fixed-peg collateral value:
`collateral[t] = collateral[t-1] * (1 + daily_income_rate)`. -/
def collateralPathFixed (c0 dailyIncomeRate : ℚ) : ℕ → ℚ
  | 0 => c0
  | t + 1 => collateralPathFixed c0 dailyIncomeRate t * (1 + dailyIncomeRate)

/-- Per-step borrow rate derived from a utilization path via the
vectorized kinked formula. -/
def ratePathOf (p : InterestRateParams) (util : ℕ → ℚ) (t : ℕ) : ℚ :=
  vectorizedBorrowRate p.optimal_utilization p.base_rate p.slope1 p.slope2
    (util t)

/-- One path of `run_monte_carlo` with peg dynamics enabled, given the
sampled utilization and exchange-rate sequences. -/
def runMonteCarloPegPath (p : InterestRateParams)
    (lt c0 d0 supplyApy initialPeg : ℚ) (horizonDays : ℕ)
    (util pegIn : ℕ → ℚ) : MCPathResult :=
  runMCPath lt (horizonDays + 1)
    (collateralPathPeg c0 initialPeg (supplyApy / 365) pegIn)
    (debtPath d0 (ratePathOf p util))
    (some pegIn)

/-- One path of `run_monte_carlo` with the peg held fixed. -/
def runMonteCarloFixedPath (p : InterestRateParams)
    (lt c0 d0 stakingApy supplyApy : ℚ) (horizonDays : ℕ)
    (util : ℕ → ℚ) : MCPathResult :=
  runMCPath lt (horizonDays + 1)
    (collateralPathFixed c0 ((stakingApy + supplyApy) / 365))
    (debtPath d0 (ratePathOf p util))
    none

/-- `firstHitAux` finds the first hit: if some index in the scanned
window satisfies `p`, the result is the least such index. -/
lemma firstHitAux_spec (p : ℕ → Bool) :
    ∀ fuel i, (∃ t, i ≤ t ∧ t < i + fuel ∧ p t = true) →
      p (firstHitAux p fuel i) = true ∧
      i ≤ firstHitAux p fuel i ∧
      firstHitAux p fuel i < i + fuel ∧
      ∀ s, i ≤ s → s < firstHitAux p fuel i → p s = false := by
  intro fuel
  induction fuel with
  | zero =>
    rintro i ⟨t, h1, h2, _⟩
    omega
  | succ fuel ih =>
    rintro i ⟨t, h1, h2, h3⟩
    rw [firstHitAux]
    by_cases hp : p i = true
    · rw [if_pos hp]
      exact ⟨hp, le_refl i, by omega, fun s hs1 hs2 => by omega⟩
    · rw [if_neg hp]
      have hpfalse : p i = false := Bool.not_eq_true _ ▸ eq_false_of_ne_true hp
      have hti : i + 1 ≤ t := by
        rcases Nat.eq_or_lt_of_le h1 with rfl | h
        · rw [h3] at hpfalse; cases hpfalse
        · omega
      obtain ⟨g1, g2, g3, g4⟩ := ih (i + 1) ⟨t, hti, by omega, h3⟩
      refine ⟨g1, by omega, by omega, ?_⟩
      intro s hs1 hs2
      rcases Nat.eq_or_lt_of_le hs1 with rfl | h
      · exact hpfalse
      · exact g4 s h hs2

/-- When the liquidation flag is set, `firstLiq` is a genuine first-hit:
its health factor is below one, it lies inside the horizon, and every
earlier step's health factor is not below one. -/
lemma firstLiq_spec (lt : ℚ) (c d : ℕ → ℚ) (n : ℕ)
    (h : liqFlag lt c d n = true) :
    hfPre lt c d (firstLiq lt c d n) < 1 ∧
    firstLiq lt c d n < n ∧
    ∀ s, s < firstLiq lt c d n → ¬ hfPre lt c d s < 1 := by
  obtain ⟨t, htn, hpt⟩ := List.any_eq_true.mp h
  have htn' : t < n := List.mem_range.mp htn
  obtain ⟨g1, g2, g3, g4⟩ := firstHitAux_spec
    (fun t => decide (hfPre lt c d t < 1)) n 0
    ⟨t, Nat.zero_le t, by omega, hpt⟩
  refine ⟨of_decide_eq_true g1, by simpa using g3, ?_⟩
  intro s hs
  exact of_decide_eq_false (g4 s (Nat.zero_le s) hs)

/-- C1: for any path of `run_monte_carlo` whose liquidated flag is set,
with `t*` the first timestep whose (output) health factor is below one,
the collateral, debt, health-factor, P&L and (when present) peg values at
every timestep `t ≥ t*` equal their values at `t*` — a liquidated
position stops accruing. -/
theorem mc_freeze_invariant (lt : ℚ) (n : ℕ) (c d : ℕ → ℚ)
    (peg : Option (ℕ → ℚ)) (tstar : ℕ)
    (hliq : (runMCPath lt n c d peg).liquidated = true)
    (hfirst : (runMCPath lt n c d peg).hf tstar < 1)
    (hmin : ∀ s, s < tstar → ¬ (runMCPath lt n c d peg).hf s < 1) :
    ∀ t, tstar ≤ t →
      (runMCPath lt n c d peg).collateral t =
        (runMCPath lt n c d peg).collateral tstar ∧
      (runMCPath lt n c d peg).debt t = (runMCPath lt n c d peg).debt tstar ∧
      (runMCPath lt n c d peg).hf t = (runMCPath lt n c d peg).hf tstar ∧
      (runMCPath lt n c d peg).pnl t = (runMCPath lt n c d peg).pnl tstar ∧
      ∀ pf, (runMCPath lt n c d peg).peg = some pf → pf t = pf tstar := by
  have hb : liqFlag lt c d n = true := hliq
  have hcol : (runMCPath lt n c d peg).collateral =
      freezeAt c (firstLiq lt c d n) := by
    simp [runMCPath, hb]
  have hdeb : (runMCPath lt n c d peg).debt =
      freezeAt d (firstLiq lt c d n) := by
    simp [runMCPath, hb]
  have hpeg : (runMCPath lt n c d peg).peg =
      peg.map (fun pp => freezeAt pp (firstLiq lt c d n)) := by
    simp [runMCPath, hb]
  have hhf : (runMCPath lt n c d peg).hf = fun t =>
      freezeAt c (firstLiq lt c d n) t * lt /
        freezeAt d (firstLiq lt c d n) t := by
    simp [runMCPath, hb]
  have hpnl : (runMCPath lt n c d peg).pnl = fun t =>
      (freezeAt c (firstLiq lt c d n) t -
        freezeAt d (firstLiq lt c d n) t) - (c 0 - d 0) := by
    simp [runMCPath, hb]
  obtain ⟨hf0, ht0n, hmin0⟩ := firstLiq_spec lt c d n hb
  have hfreeze_lt : ∀ (x : ℕ → ℚ) (s : ℕ), s < firstLiq lt c d n →
      freezeAt x (firstLiq lt c d n) s = x s := by
    intro x s hs
    exact if_neg (by omega)
  have hfreeze_ge : ∀ (x : ℕ → ℚ) (s : ℕ), firstLiq lt c d n ≤ s →
      freezeAt x (firstLiq lt c d n) s = x s → True := fun _ _ _ _ => trivial
  have hout_ge : ∀ s, firstLiq lt c d n ≤ s →
      (runMCPath lt n c d peg).hf s = hfPre lt c d (firstLiq lt c d n) := by
    intro s hs
    rw [hhf]
    simp only
    rw [freezeAt, if_pos hs, freezeAt, if_pos hs]
    rfl
  have hout_lt : ∀ s, s < firstLiq lt c d n →
      (runMCPath lt n c d peg).hf s = hfPre lt c d s := by
    intro s hs
    rw [hhf]
    simp only
    rw [hfreeze_lt c s hs, hfreeze_lt d s hs]
    rfl
  have heq : tstar = firstLiq lt c d n := by
    rcases Nat.lt_trichotomy tstar (firstLiq lt c d n) with hlt | heq | hgt
    · exfalso
      apply hmin0 tstar hlt
      rw [hout_lt tstar hlt] at hfirst
      exact hfirst
    · exact heq
    · exfalso
      apply hmin (firstLiq lt c d n) hgt
      rw [hout_ge (firstLiq lt c d n) (le_refl _)]
      exact hf0
  intro t ht
  rw [heq] at ht
  rw [heq]
  refine ⟨?_, ?_, ?_, ?_, ?_⟩
  · rw [hcol, freezeAt, if_pos ht, freezeAt, if_pos (le_refl _)]
  · rw [hdeb, freezeAt, if_pos ht, freezeAt, if_pos (le_refl _)]
  · rw [hout_ge t ht, hout_ge (firstLiq lt c d n) (le_refl _)]
  · rw [hpnl]
    simp only
    rw [freezeAt, if_pos ht, freezeAt, if_pos ht, freezeAt,
      if_pos (le_refl (firstLiq lt c d n)), freezeAt,
      if_pos (le_refl (firstLiq lt c d n))]
  · intro pf hpf
    rw [hpeg] at hpf
    cases peg with
    | none => simp at hpf
    | some pp =>
      have hpf' : freezeAt pp (firstLiq lt c d n) = pf := by
        simpa using hpf
      rw [← hpf', freezeAt, if_pos ht, freezeAt, if_pos (le_refl _)]

/-- Witness for C1: the path with collateral `2 - t`, debt `1`,
threshold `1` and peg sequence `t` is liquidated first at step `t* = 2`,
and its step-3 values all equal the step-2 values. -/
theorem mc_freeze_invariant_witness :
    (runMCPath 1 3 (fun t => (2 : ℚ) - t) (fun _ => 1)
        (some fun t => (t : ℚ))).collateral 3 =
      (runMCPath 1 3 (fun t => (2 : ℚ) - t) (fun _ => 1)
        (some fun t => (t : ℚ))).collateral 2 ∧
    (runMCPath 1 3 (fun t => (2 : ℚ) - t) (fun _ => 1)
        (some fun t => (t : ℚ))).debt 3 =
      (runMCPath 1 3 (fun t => (2 : ℚ) - t) (fun _ => 1)
        (some fun t => (t : ℚ))).debt 2 ∧
    (runMCPath 1 3 (fun t => (2 : ℚ) - t) (fun _ => 1)
        (some fun t => (t : ℚ))).hf 3 =
      (runMCPath 1 3 (fun t => (2 : ℚ) - t) (fun _ => 1)
        (some fun t => (t : ℚ))).hf 2 ∧
    (runMCPath 1 3 (fun t => (2 : ℚ) - t) (fun _ => 1)
        (some fun t => (t : ℚ))).pnl 3 =
      (runMCPath 1 3 (fun t => (2 : ℚ) - t) (fun _ => 1)
        (some fun t => (t : ℚ))).pnl 2 := by
  have h := mc_freeze_invariant 1 3 (fun t => (2 : ℚ) - t) (fun _ => 1)
    (some fun t => (t : ℚ)) 2
    (by norm_num [runMCPath, liqFlag, hfPre, List.range_succ])
    (by norm_num [runMCPath, liqFlag, hfPre, List.range_succ, firstLiq,
      firstHitAux, freezeAt])
    (by
      intro s hs
      interval_cases s <;>
        norm_num [runMCPath, liqFlag, hfPre, List.range_succ, firstLiq,
          firstHitAux, freezeAt])
    3 (by norm_num)
  exact ⟨h.1, h.2.1, h.2.2.1, h.2.2.2.1⟩
